import Mathlib

/-!
Verification of the collision/quadtree core of the `bevy-collision-balls`
repository, shallowly embedded in Lean 4.

Modelling conventions:
* `f32` values are modelled by `ℚ` (exact arithmetic; every operation the
  source performs on these values is `+ - * /` and comparisons).
* `f32::sqrt` is not rational, so functions that call it
  (`BallCollisions::check`, `balls_bounce_after_collision`) receive the
  square root as an explicit argument; theorems about them hypothesise
  `0 ≤ s` and `s * s = radicand`, which characterises the real square root.
* `Entity` (bevy's opaque id) is modelled by `Nat`.
* `u8` arithmetic on the quadtree `depth` field is modelled by `% 256`
  (release-build wrapping semantics).
* Rust `Vec::push` is `++ [x]`; `Result<(), ErrorKind>` is
  `Option ErrorKind` (`none` = `Ok(())`), returned next to the updated
  tree since the Rust methods mutate `self`.
-/

/-- 2D vector with `f32` components (`bevy::math::Vec2`), over `ℚ`. -/
structure Vec2 where
  x : ℚ
  y : ℚ
deriving DecidableEq, Repr

/-- Axis-aligned rectangle from `src/quadtree/bounds.rs`:
`{ center: Vec2, half_extents: Vec2 }`. -/
structure Bounds where
  center : Vec2
  half_extents : Vec2
deriving DecidableEq, Repr

namespace Bounds

/-- `Bounds::new(center, width, height)`. -/
def new (center : Vec2) (width height : ℚ) : Bounds :=
  ⟨center, ⟨width * (1/2), height * (1/2)⟩⟩

/-- `Bounds::width`. -/
def width (b : Bounds) : ℚ := b.half_extents.x * 2

/-- `Bounds::height`. -/
def height (b : Bounds) : ℚ := b.half_extents.y * 2

/-- `Bounds::top`. -/
def top (b : Bounds) : ℚ := b.center.y + b.half_extents.y

/-- `Bounds::bottom`. -/
def bottom (b : Bounds) : ℚ := b.center.y - b.half_extents.y

/-- `Bounds::left`. -/
def left (b : Bounds) : ℚ := b.center.x - b.half_extents.x

/-- `Bounds::right`. -/
def right (b : Bounds) : ℚ := b.center.x + b.half_extents.x

/-- `Bounds::top_left`. -/
def top_left (b : Bounds) : Vec2 := ⟨b.left, b.top⟩

/-- `Bounds::top_right`. -/
def top_right (b : Bounds) : Vec2 := ⟨b.right, b.top⟩

/-- `Bounds::bottom_left`. -/
def bottom_left (b : Bounds) : Vec2 := ⟨b.left, b.bottom⟩

/-- `Bounds::bottom_right`. -/
def bottom_right (b : Bounds) : Vec2 := ⟨b.right, b.bottom⟩

/-- `Bounds::contains(point)`: inclusive comparisons against the four
derived edges, in source order. -/
def contains (b : Bounds) (point : Vec2) : Bool :=
  decide (point.x ≥ b.left) && decide (point.x ≤ b.right)
    && decide (point.y ≤ b.top) && decide (point.y ≥ b.bottom)

/-- `Bounds::intersects(area)`: tests whether any of `area`'s four corners
lies inside `self` (corner-containment approximation, in source order). -/
def intersects (b : Bounds) (area : Bounds) : Bool :=
  b.contains area.top_left || b.contains area.top_right
    || b.contains area.bottom_left || b.contains area.bottom_right

/-- The arithmetic part of `Bounds::from_corners(min, max)` (the body after
the `assert!(min.x < max.x)`). -/
def from_corners (mn mx : Vec2) : Bounds :=
  if mn.y > mx.y then
    -- min = top left
    ⟨⟨mn.x + (mx.x - mn.x) * (1/2), mn.y - (mn.y - mx.y) * (1/2)⟩,
     ⟨(mx.x - mn.x) * (1/2), (mn.y - mx.y) * (1/2)⟩⟩
  else
    -- min = bottom left
    ⟨⟨mn.x + (mx.x - mn.x) * (1/2), mn.y + (mx.y - mn.y) * (1/2)⟩,
     ⟨(mx.x - mn.x) * (1/2), (mx.y - mn.y) * (1/2)⟩⟩

/-- `Bounds::from_corners` including its `assert!(min.x < max.x)`:
`none` models the panic of a failed assertion. -/
def from_corners_checked (mn mx : Vec2) : Option Bounds :=
  if mn.x < mx.x then some (from_corners mn mx) else none

end Bounds

/-- Full AABB interval-overlap test. Modelled from the spec: used only to
express that `Bounds::intersects` is NOT a full overlap test ("two regions
can overlap without either containing the other's corner, e.g. a thin
cross"); the repository has no such function. -/
def aabbOverlap (a b : Bounds) : Bool :=
  decide (a.left ≤ b.right) && decide (b.left ≤ a.right)
    && decide (a.bottom ≤ b.top) && decide (b.bottom ≤ a.top)

/-- `Location` from `src/quadtree/location.rs`. -/
inductive Location where
  | Point (p : Vec2)
  | Area (b : Bounds)
deriving DecidableEq, Repr

/-- `ErrorKind` from `src/quadtree/mod.rs`. -/
inductive ErrorKind where
  | OutOfBounds (b : Bounds) (l : Location)
deriving DecidableEq, Repr

/-- `Options` from `src/quadtree/mod.rs` (`max_depth: Option<u8>` modelled
with `Nat` values; the code reads it as `max_depth.unwrap_or(255)`). -/
structure Options where
  capacity : Nat
  max_depth : Option Nat
  min_size : Option Vec2
deriving DecidableEq, Repr

/-- `Ball` component from `src/components.rs`. -/
structure Ball where
  radius : ℚ
  mass : ℚ
deriving DecidableEq, Repr

/-- `QuadTree` from `src/quadtree/mod.rs`. The Rust
`struct QuadTree { bounds, body: Box<Body>, options, depth }` with
`enum Body { Empty, Leaf(Vec<(Location, Entity)>), Node([QuadTree; 4]) }`
is flattened into one inductive (the struct fields are repeated in each
body constructor); `Node` children are in source order
NorthWest, NorthEast, SouthEast, SouthWest. -/
inductive QuadTree where
  | Empty (bounds : Bounds) (options : Options) (depth : Nat)
  | Leaf (bounds : Bounds) (options : Options) (depth : Nat)
      (elems : List (Location × Nat))
  | Node (bounds : Bounds) (options : Options) (depth : Nat)
      (nw ne se sw : QuadTree)
deriving DecidableEq, Repr

namespace QuadTree

/-- Field accessor for the flattened `bounds` field. -/
def bounds : QuadTree → Bounds
  | .Empty b _ _ => b
  | .Leaf b _ _ _ => b
  | .Node b _ _ _ _ _ _ => b

/-- Field accessor for the flattened `options` field. -/
def options : QuadTree → Options
  | .Empty _ o _ => o
  | .Leaf _ o _ _ => o
  | .Node _ o _ _ _ _ _ => o

/-- Field accessor for the flattened `depth` field. -/
def depth : QuadTree → Nat
  | .Empty _ _ d => d
  | .Leaf _ _ d _ => d
  | .Node _ _ d _ _ _ _ => d

/-- `QuadTree::new(bounds, options)`: empty tree at depth 0. -/
def new (b : Bounds) (o : Options) : QuadTree := .Empty b o 0

/-- `QuadTree::new_region(bounds, options, depth)`: empty tree at
`depth + 1` (u8 addition, modelled as `% 256`). -/
def new_region (b : Bounds) (o : Options) (d : Nat) : QuadTree :=
  .Empty b o ((d + 1) % 256)

/-- `QuadTree::contains(location)`: point containment or corner-based
area intersection against the node's bounds. -/
def contains (t : QuadTree) (location : Location) : Bool :=
  match location with
  | .Point point => t.bounds.contains point
  | .Area area => t.bounds.intersects area

/-- The `if let Some(min_size) = self.options.min_size { ... }` guard in
`QuadTree::insert`: stop splitting when the bounds are at most twice the
configured minimum size. -/
def minSizeStop (o : Options) (b : Bounds) : Bool :=
  match o.min_size with
  | some ms => decide (b.width ≤ ms.x * 2) || decide (b.height ≤ ms.y * 2)
  | none => false

mutual

/-- `QuadTree::insert(location, value)`. Returns the updated tree next to
`none` for `Ok(())` or `some e` for `Err(e)` (the Rust method mutates
`self`). Recursion into `Node` children is structural; `fuel` bounds only
the depth of cascading leaf splits, which the Rust code performs by
unbounded recursion (it can in fact recurse forever when over-capacity
entries can never be separated, since the u8 `depth` wraps below the
`>= 255` stop; `fuel = 0` then returns the tree unchanged, a state no run
with the fuel chosen in `insert` reaches on the inputs used here). -/
def insertGo (fuel : Nat) (t : QuadTree) (location : Location) (value : Nat) :
    QuadTree × Option ErrorKind :=
  if t.contains location = false then
    (t, some (.OutOfBounds t.bounds location))
  else
    match t with
    | .Empty b o d => (.Leaf b o d [(location, value)], none)
    | .Leaf b o d elems =>
      let elems' := elems ++ [(location, value)]
      if elems'.length ≤ o.capacity ∨ d ≥ o.max_depth.getD 255 then
        (.Leaf b o d elems', none)
      else if minSizeStop o b then
        (.Leaf b o d elems', none)
      else
        match fuel with
        | 0 => (t, none)
        | fuel' + 1 =>
          let center := b.center
          let rs :=
            insertAll fuel' elems'
              (new_region (Bounds.from_corners b.top_left center) o ((d + 1) % 256),
               new_region (Bounds.from_corners center b.top_right) o ((d + 1) % 256),
               new_region (Bounds.from_corners center b.bottom_right) o ((d + 1) % 256),
               new_region (Bounds.from_corners b.bottom_left center) o ((d + 1) % 256))
          (.Node b o d rs.1 rs.2.1 rs.2.2.1 rs.2.2.2, none)
    | .Node b o d q0 q1 q2 q3 =>
      (.Node b o d (insertGo fuel q0 location value).1
        (insertGo fuel q1 location value).1
        (insertGo fuel q2 location value).1
        (insertGo fuel q3 location value).1, none)
termination_by (fuel, 0, sizeOf t)

/-- The re-insertion loop of a leaf split: insert every entry into each of
the four fresh regions in order, discarding per-child errors. -/
def insertAll (fuel : Nat) (elems : List (Location × Nat))
    (rs : QuadTree × QuadTree × QuadTree × QuadTree) :
    QuadTree × QuadTree × QuadTree × QuadTree :=
  match elems with
  | [] => rs
  | e :: es =>
    insertAll fuel es
      ((insertGo fuel rs.1 e.1 e.2).1,
       (insertGo fuel rs.2.1 e.1 e.2).1,
       (insertGo fuel rs.2.2.1 e.1 e.2).1,
       (insertGo fuel rs.2.2.2 e.1 e.2).1)
termination_by (fuel, 1, elems.length)

end

/-- Fuel used by `insert`: ample for every tree occurring in this
development (it bounds only the nesting of cascading splits). -/
def insertFuel : Nat := 32

/-- `QuadTree::insert` as called by the per-tick driver. -/
def insert (t : QuadTree) (location : Location) (value : Nat) :
    QuadTree × Option ErrorKind :=
  insertGo insertFuel t location value

/-- `QuadTree::region(region)`: the child for a quadrant of a `Node`,
`none` otherwise. Quadrant order NorthWest, NorthEast, SouthEast,
SouthWest as in `Region::index`. -/
def region (t : QuadTree) (i : Fin 4) : Option QuadTree :=
  match t with
  | .Node _ _ _ q0 q1 q2 q3 =>
    some (match i with | 0 => q0 | 1 => q1 | 2 => q2 | 3 => q3)
  | _ => none

/-- The entry lists of all `Leaf` nodes, in the depth-first quadrant order
of `get_regions` (used by `regions()`; `Empty` nodes yield nothing). -/
def leafEntryLists : QuadTree → List (List (Location × Nat))
  | .Empty _ _ _ => []
  | .Leaf _ _ _ elems => [elems]
  | .Node _ _ _ q0 q1 q2 q3 =>
    q0.leafEntryLists ++ q1.leafEntryLists ++ q2.leafEntryLists
      ++ q3.leafEntryLists

end QuadTree

/-- Fold a sequence of insertions over a tree, keeping the updated tree
and discarding the per-call results, as the per-tick driver does. -/
def applyInserts (t : QuadTree) (ins : List (Location × Nat)) : QuadTree :=
  ins.foldl (fun t e => (t.insert e.1 e.2).1) t

/-- `EdgeCollider` from `src/collision.rs`: wall-collision checks against
a fixed arena bounds. -/
structure EdgeCollider where
  bounds : Bounds
deriving DecidableEq, Repr

namespace EdgeCollider

/-- `EdgeCollider::check_left(ball, transform, velocity)`: returns the
`bool` result together with the (translation, velocity) pair after the
call (the Rust method mutates them through `&mut`). -/
def check_left (e : EdgeCollider) (ball : Ball) (pos vel : Vec2) :
    Bool × Vec2 × Vec2 :=
  let min_x := e.bounds.left + ball.radius
  if pos.x > min_x then (false, pos, vel)
  else (true, ⟨min_x + (min_x - pos.x), pos.y⟩, ⟨vel.x * (-1), vel.y⟩)

/-- `EdgeCollider::check_right`. -/
def check_right (e : EdgeCollider) (ball : Ball) (pos vel : Vec2) :
    Bool × Vec2 × Vec2 :=
  let max_x := e.bounds.right - ball.radius
  if pos.x < max_x then (false, pos, vel)
  else (true, ⟨max_x - (pos.x - max_x), pos.y⟩, ⟨vel.x * (-1), vel.y⟩)

/-- `EdgeCollider::check_top`. -/
def check_top (e : EdgeCollider) (ball : Ball) (pos vel : Vec2) :
    Bool × Vec2 × Vec2 :=
  let max_y := e.bounds.top - ball.radius
  if pos.y < max_y then (false, pos, vel)
  else (true, ⟨pos.x, max_y - (pos.y - max_y)⟩, ⟨vel.x, vel.y * (-1)⟩)

/-- `EdgeCollider::check_bottom`. -/
def check_bottom (e : EdgeCollider) (ball : Ball) (pos vel : Vec2) :
    Bool × Vec2 × Vec2 :=
  let min_y := e.bounds.bottom + ball.radius
  if pos.y > min_y then (false, pos, vel)
  else (true, ⟨pos.x, min_y + (min_y - pos.y)⟩, ⟨vel.x, vel.y * (-1)⟩)

end EdgeCollider

/-- `BallCollisions` from `src/collision.rs`: the pair accumulator
(`store: Vec<[Entity; 2]>`). -/
structure BallCollisions where
  store : List (Nat × Nat)
deriving DecidableEq, Repr

/-- `BallCollisions::check(balls)`. `dist_sqrt` stands for the value of
`f32::sqrt((x*x)+(y*y))` computed in the colliding branch; theorems
characterise it by `0 ≤ dist_sqrt` and `dist_sqrt * dist_sqrt = x*x+y*y`.
Returns the two translations after the call and the updated
accumulator. -/
def BallCollisions.check (c : BallCollisions) (dist_sqrt : ℚ)
    (a : Nat) (pos_a : Vec2) (ball_a : Ball)
    (b : Nat) (pos_b : Vec2) (ball_b : Ball) :
    Vec2 × Vec2 × BallCollisions :=
  let x := pos_a.x - pos_b.x
  let y := pos_a.y - pos_b.y
  let r := ball_a.radius + ball_b.radius
  let distance := x * x + y * y
  if distance > r * r then (pos_a, pos_b, c)
  else
    let distance := dist_sqrt
    let overlap := (distance - r) * (1/2)
    (⟨pos_a.x - overlap * x / distance, pos_a.y - overlap * y / distance⟩,
     ⟨pos_b.x + overlap * x / distance, pos_b.y + overlap * y / distance⟩,
     ⟨c.store ++ [(a, b)]⟩)

/-- `balls_bounce_after_collision(balls)` from `src/collision.rs`.
`dist_sqrt` stands for `f32::sqrt((x*x)+(y*y))`; the function divides by
it to form the unit normal from A to B. Returns the two velocities after
the call. -/
def balls_bounce_after_collision (dist_sqrt : ℚ)
    (pos_a : Vec2) (vel_a : Vec2) (ball_a : Ball)
    (pos_b : Vec2) (vel_b : Vec2) (ball_b : Ball) : Vec2 × Vec2 :=
  let nx := (pos_b.x - pos_a.x) / dist_sqrt
  let ny := (pos_b.y - pos_a.y) / dist_sqrt
  let kx := vel_a.x - vel_b.x
  let ky := vel_a.y - vel_b.y
  let p := 2 * (nx * kx + ny * ky) / (ball_a.mass + ball_b.mass)
  (⟨vel_a.x - p * ball_b.mass * nx, vel_a.y - p * ball_b.mass * ny⟩,
   ⟨vel_b.x + p * ball_a.mass * nx, vel_b.y + p * ball_a.mass * ny⟩)

/-- The per-region pair enumeration of `check_collisions_quadtree` in
`src/main.rs`: for each entry `(a, loc_a)` of the region's entry list, for
each entry `(b, _)` of the same list, skip when `a == b`, else the pair
`(a, b)` is passed to `BallCollisions::check`. Returns the id pairs in
the order they are tested. -/
def testedPairs (part : List (Nat × Location)) : List (Nat × Nat) :=
  part.flatMap fun pa =>
    (part.filter fun pb => decide (pa.1 ≠ pb.1)).map fun pb => (pa.1, pb.1)

/-- Depth bookkeeping invariant: every `Node`'s four children sit exactly
two depth steps below it (u8 arithmetic, hence `% 256`). -/
def QuadTree.depthSteps : QuadTree → Prop
  | .Empty _ _ _ => True
  | .Leaf _ _ _ _ => True
  | .Node _ _ d q0 q1 q2 q3 =>
    q0.depth = (d + 2) % 256 ∧ q1.depth = (d + 2) % 256 ∧
    q2.depth = (d + 2) % 256 ∧ q3.depth = (d + 2) % 256 ∧
    q0.depthSteps ∧ q1.depthSteps ∧ q2.depthSteps ∧ q3.depthSteps

/-- Capacity invariant for a tree configured with `capacity = k`,
`max_depth = None`, `min_size = None`: every subtree carries those
options and an even depth below 255 (as reachable trees do, since depths
step by 2 from 0 and wrap at 256), and every leaf holds at most `k`
entries. -/
def QuadTree.capInv (k : Nat) : QuadTree → Prop
  | .Empty _ o d => d % 2 = 0 ∧ d < 255 ∧ o = ⟨k, none, none⟩
  | .Leaf _ o d elems =>
    d % 2 = 0 ∧ d < 255 ∧ o = ⟨k, none, none⟩ ∧ elems.length ≤ k
  | .Node _ o d q0 q1 q2 q3 =>
    d % 2 = 0 ∧ d < 255 ∧ o = ⟨k, none, none⟩ ∧
    q0.capInv k ∧ q1.capInv k ∧ q2.capInv k ∧ q3.capInv k

/-!  Concrete instances used by witnesses and counterexamples. -/

/-- Options with `capacity = 1` and no depth/size limits. -/
def exOptions : Options := ⟨1, none, none⟩

/-- The bounds `(0,0)`–`(100,100)` of §8's out-of-bounds scenario. -/
def exBounds : Bounds := Bounds.new ⟨50, 50⟩ 100 100

/-- An empty tree over `exBounds`. -/
def exT0 : QuadTree := QuadTree.new exBounds exOptions

/-- `exT0` after inserting a point in the south-west quadrant. -/
def exT1 : QuadTree := (exT0.insert (.Point ⟨25, 25⟩) 1).1

/-- `exT1` after inserting a point in the north-east quadrant, which
splits the root leaf (capacity 1). -/
def exT2 : QuadTree := (exT1.insert (.Point ⟨75, 75⟩) 2).1

/-- A wide, flat rectangle: one arm of a thin cross. -/
def crossA : Bounds := Bounds.new ⟨0, 0⟩ 10 1

/-- A narrow, tall rectangle: the other arm of a thin cross. -/
def crossB : Bounds := Bounds.new ⟨0, 0⟩ 1 10

/-- A two-entry region list with distinct ids at the same location. -/
def exPart : List (Nat × Location) :=
  [(1, .Point ⟨10, 10⟩), (2, .Point ⟨10, 10⟩)]

/-! ## Theorems -/

/-- C8: for every `Bounds` `b` and point `p`, `b.contains p` returns true
if and only if `b.left ≤ p.x ≤ b.right` and `b.bottom ≤ p.y ≤ b.top`,
with all four edge comparisons inclusive. -/
theorem bounds_contains_iff (b : Bounds) (p : Vec2) :
    b.contains p = true ↔
      b.left ≤ p.x ∧ p.x ≤ b.right ∧ b.bottom ≤ p.y ∧ p.y ≤ b.top := by
  simp only [Bounds.contains, Bool.and_eq_true, decide_eq_true_eq, ge_iff_le]
  tauto

/-- C9: `a.intersects b` returns true iff at least one of `b`'s four
corners is contained in `a`; and this is not a full overlap test: the
thin-cross rectangles `crossA`, `crossB` overlap as intervals on both
axes, yet `intersects` returns false. -/
theorem bounds_intersects_corners :
    (∀ a b : Bounds, a.intersects b = true ↔
      (a.contains b.top_left = true ∨ a.contains b.top_right = true ∨
        a.contains b.bottom_left = true ∨ a.contains b.bottom_right = true)) ∧
    aabbOverlap crossA crossB = true ∧ crossA.intersects crossB = false := by
  refine ⟨fun a b => ?_, ?_, ?_⟩
  · simp [Bounds.intersects, Bool.or_eq_true, or_assoc]
  · norm_num [aabbOverlap, crossA, crossB, Bounds.new, Bounds.left,
      Bounds.right, Bounds.top, Bounds.bottom]
  · norm_num [crossA, crossB, Bounds.new, Bounds.intersects, Bounds.contains,
      Bounds.left, Bounds.right, Bounds.top, Bounds.bottom, Bounds.top_left,
      Bounds.top_right, Bounds.bottom_left, Bounds.bottom_right]

/-- C10: `Bounds::from_corners(min, max)` asserts `min.x < max.x` (the
checked variant returns `none`, modelling the panic, exactly when
`max.x ≤ min.x`); under that precondition it accepts either vertical
order and yields `left = min.x`, `right = max.x`,
`bottom = min(min.y, max.y)`, `top = max(min.y, max.y)`, and nonnegative
half-extents. -/
theorem from_corners_spec :
    (∀ p q : Vec2, Bounds.from_corners_checked p q = none ↔ q.x ≤ p.x) ∧
    (∀ p q : Vec2, p.x < q.x →
      Bounds.from_corners_checked p q = some (Bounds.from_corners p q) ∧
      (Bounds.from_corners p q).left = p.x ∧
      (Bounds.from_corners p q).right = q.x ∧
      (Bounds.from_corners p q).bottom = min p.y q.y ∧
      (Bounds.from_corners p q).top = max p.y q.y ∧
      0 ≤ (Bounds.from_corners p q).half_extents.x ∧
      0 ≤ (Bounds.from_corners p q).half_extents.y) := by
  constructor
  · intro p q
    unfold Bounds.from_corners_checked
    split_ifs with h
    · simp; linarith
    · simp; linarith [not_lt.mp h]
  · intro p q hx
    refine ⟨by simp [Bounds.from_corners_checked, hx], ?_⟩
    unfold Bounds.from_corners
    split_ifs with hy
    · refine ⟨?_, ?_, ?_, ?_, ?_, ?_⟩
      · show p.x + (q.x - p.x) * (1/2) - (q.x - p.x) * (1/2) = p.x; ring
      · show p.x + (q.x - p.x) * (1/2) + (q.x - p.x) * (1/2) = q.x; ring
      · show p.y - (p.y - q.y) * (1/2) - (p.y - q.y) * (1/2) = min p.y q.y
        rw [min_eq_right (le_of_lt hy)]; ring
      · show p.y - (p.y - q.y) * (1/2) + (p.y - q.y) * (1/2) = max p.y q.y
        rw [max_eq_left (le_of_lt hy)]; ring
      · show (0 : ℚ) ≤ (q.x - p.x) * (1/2); linarith
      · show (0 : ℚ) ≤ (p.y - q.y) * (1/2); linarith
    · push_neg at hy
      refine ⟨?_, ?_, ?_, ?_, ?_, ?_⟩
      · show p.x + (q.x - p.x) * (1/2) - (q.x - p.x) * (1/2) = p.x; ring
      · show p.x + (q.x - p.x) * (1/2) + (q.x - p.x) * (1/2) = q.x; ring
      · show p.y + (q.y - p.y) * (1/2) - (q.y - p.y) * (1/2) = min p.y q.y
        rw [min_eq_left hy]; ring
      · show p.y + (q.y - p.y) * (1/2) + (q.y - p.y) * (1/2) = max p.y q.y
        rw [max_eq_right hy]; ring
      · show (0 : ℚ) ≤ (q.x - p.x) * (1/2); linarith
      · show (0 : ℚ) ≤ (q.y - p.y) * (1/2); linarith

/-- Witness for C10's theorem at corners `(0,10)` and `(10,0)`. -/
theorem from_corners_spec_witness :
    Bounds.from_corners_checked ⟨0, 10⟩ ⟨10, 0⟩ =
      some (Bounds.from_corners ⟨0, 10⟩ ⟨10, 0⟩) ∧
    (Bounds.from_corners (⟨0, 10⟩ : Vec2) ⟨10, 0⟩).left = 0 ∧
    (Bounds.from_corners (⟨0, 10⟩ : Vec2) ⟨10, 0⟩).bottom = min (10 : ℚ) 0 := by
  have h := from_corners_spec.2 ⟨0, 10⟩ ⟨10, 0⟩ (by norm_num)
  exact ⟨h.1, h.2.1, h.2.2.2.1⟩

/-- C7: the left-wall check fires iff `pos.x ≤ left + radius`; when it
fires it mirrors `pos.x` to `(left+radius) + ((left+radius) − pos.x)` and
multiplies `velocity.x` by −1, and otherwise changes nothing; in
particular with the arena's left edge at 0, a body at `pos.x = radius − ε`
(`ε > 0`) with `vel.x < 0` ends at `pos.x = radius + ε` with `vel.x > 0`.
The right, top and bottom checks behave symmetrically on their axis. -/
theorem edge_collider_spec (e : EdgeCollider) (ball : Ball) (pos vel : Vec2) :
    (((e.check_left ball pos vel).1 = true ↔
        pos.x ≤ e.bounds.left + ball.radius) ∧
      (pos.x ≤ e.bounds.left + ball.radius →
        e.check_left ball pos vel =
          (true,
           ⟨(e.bounds.left + ball.radius) +
              ((e.bounds.left + ball.radius) - pos.x), pos.y⟩,
           ⟨-vel.x, vel.y⟩)) ∧
      (e.bounds.left + ball.radius < pos.x →
        e.check_left ball pos vel = (false, pos, vel))) ∧
    (((e.check_right ball pos vel).1 = true ↔
        e.bounds.right - ball.radius ≤ pos.x) ∧
      (e.bounds.right - ball.radius ≤ pos.x →
        e.check_right ball pos vel =
          (true,
           ⟨(e.bounds.right - ball.radius) -
              (pos.x - (e.bounds.right - ball.radius)), pos.y⟩,
           ⟨-vel.x, vel.y⟩)) ∧
      (pos.x < e.bounds.right - ball.radius →
        e.check_right ball pos vel = (false, pos, vel))) ∧
    (((e.check_top ball pos vel).1 = true ↔
        e.bounds.top - ball.radius ≤ pos.y) ∧
      (e.bounds.top - ball.radius ≤ pos.y →
        e.check_top ball pos vel =
          (true,
           ⟨pos.x, (e.bounds.top - ball.radius) -
              (pos.y - (e.bounds.top - ball.radius))⟩,
           ⟨vel.x, -vel.y⟩)) ∧
      (pos.y < e.bounds.top - ball.radius →
        e.check_top ball pos vel = (false, pos, vel))) ∧
    (((e.check_bottom ball pos vel).1 = true ↔
        pos.y ≤ e.bounds.bottom + ball.radius) ∧
      (pos.y ≤ e.bounds.bottom + ball.radius →
        e.check_bottom ball pos vel =
          (true,
           ⟨pos.x, (e.bounds.bottom + ball.radius) +
              ((e.bounds.bottom + ball.radius) - pos.y)⟩,
           ⟨vel.x, -vel.y⟩)) ∧
      (e.bounds.bottom + ball.radius < pos.y →
        e.check_bottom ball pos vel = (false, pos, vel))) ∧
    (∀ eps : ℚ, e.bounds.left = 0 → 0 < eps →
      pos.x = ball.radius - eps → vel.x < 0 →
      (e.check_left ball pos vel).2.1.x = ball.radius + eps ∧
      0 < (e.check_left ball pos vel).2.2.x) := by
  refine ⟨⟨?_, ?_, ?_⟩, ⟨?_, ?_, ?_⟩, ⟨?_, ?_, ?_⟩, ⟨?_, ?_, ?_⟩, ?_⟩
  · unfold EdgeCollider.check_left
    dsimp only
    split_ifs with h
    · simp [not_le.mpr h]
    · simp [not_lt.mp h]
  · intro h
    unfold EdgeCollider.check_left
    dsimp only
    rw [if_neg (not_lt.mpr h)]
    simp [mul_comm]
  · intro h
    unfold EdgeCollider.check_left
    dsimp only
    rw [if_pos h]
  · unfold EdgeCollider.check_right
    dsimp only
    split_ifs with h
    · simp [not_le.mpr h]
    · simp [not_lt.mp h]
  · intro h
    unfold EdgeCollider.check_right
    dsimp only
    rw [if_neg (not_lt.mpr h)]
    simp [mul_comm]
  · intro h
    unfold EdgeCollider.check_right
    dsimp only
    rw [if_pos h]
  · unfold EdgeCollider.check_top
    dsimp only
    split_ifs with h
    · simp [not_le.mpr h]
    · simp [not_lt.mp h]
  · intro h
    unfold EdgeCollider.check_top
    dsimp only
    rw [if_neg (not_lt.mpr h)]
    simp [mul_comm]
  · intro h
    unfold EdgeCollider.check_top
    dsimp only
    rw [if_pos h]
  · unfold EdgeCollider.check_bottom
    dsimp only
    split_ifs with h
    · simp [not_le.mpr h]
    · simp [not_lt.mp h]
  · intro h
    unfold EdgeCollider.check_bottom
    dsimp only
    rw [if_neg (not_lt.mpr h)]
    simp [mul_comm]
  · intro h
    unfold EdgeCollider.check_bottom
    dsimp only
    rw [if_pos h]
  · intro eps h0 heps hpos hvel
    unfold EdgeCollider.check_left
    dsimp only
    rw [if_neg (by rw [h0, hpos]; push_neg; linarith)]
    constructor
    · show e.bounds.left + ball.radius +
        (e.bounds.left + ball.radius - pos.x) = ball.radius + eps
      rw [h0, hpos]; ring
    · show 0 < vel.x * (-1); linarith

/-- Witness for C7's theorem: arena `(0,0)`–`(100,100)`, radius 5, body at
`x = 3 = 5 − 2` moving left ends at `x = 7 = 5 + 2` moving right. -/
theorem edge_collider_spec_witness :
    ((EdgeCollider.mk exBounds).check_left ⟨5, 25⟩ ⟨3, 50⟩ ⟨-2, 1⟩).2.1.x
        = 5 + 2 ∧
    0 < ((EdgeCollider.mk exBounds).check_left ⟨5, 25⟩ ⟨3, 50⟩ ⟨-2, 1⟩).2.2.x := by
  exact (edge_collider_spec ⟨exBounds⟩ ⟨5, 25⟩ ⟨3, 50⟩ ⟨-2, 1⟩).2.2.2.2 2
    (by norm_num [exBounds, Bounds.new, Bounds.left])
    (by norm_num) (by norm_num) (by norm_num)

/-- C2: `BallCollisions::check` on bodies `A`, `B` with `d = posA − posB`
and `r = radiusA + radiusB`: if `|d|² > r²` it changes nothing; otherwise
(`s` being the square root of `|d|²`, nonzero) it moves each body half the
penetration depth along the line of centers, away from the other
(`posA − overlap·d/s` and `posB + overlap·d/s` with
`overlap = (s − r)/2`), leaves the new center distance squared at `r²`,
and appends exactly the pair `[A, B]` to the accumulator. -/
theorem ball_collisions_check_spec (c : BallCollisions) (s : ℚ)
    (a : Nat) (pos_a : Vec2) (ball_a : Ball)
    (b : Nat) (pos_b : Vec2) (ball_b : Ball) :
    ((pos_a.x - pos_b.x) * (pos_a.x - pos_b.x) +
        (pos_a.y - pos_b.y) * (pos_a.y - pos_b.y) >
        (ball_a.radius + ball_b.radius) * (ball_a.radius + ball_b.radius) →
      c.check s a pos_a ball_a b pos_b ball_b = (pos_a, pos_b, c)) ∧
    ((pos_a.x - pos_b.x) * (pos_a.x - pos_b.x) +
        (pos_a.y - pos_b.y) * (pos_a.y - pos_b.y) ≤
        (ball_a.radius + ball_b.radius) * (ball_a.radius + ball_b.radius) →
      s * s = (pos_a.x - pos_b.x) * (pos_a.x - pos_b.x) +
        (pos_a.y - pos_b.y) * (pos_a.y - pos_b.y) →
      s ≠ 0 →
      c.check s a pos_a ball_a b pos_b ball_b =
        (⟨pos_a.x - (s - (ball_a.radius + ball_b.radius)) / 2 *
            (pos_a.x - pos_b.x) / s,
          pos_a.y - (s - (ball_a.radius + ball_b.radius)) / 2 *
            (pos_a.y - pos_b.y) / s⟩,
         ⟨pos_b.x + (s - (ball_a.radius + ball_b.radius)) / 2 *
            (pos_a.x - pos_b.x) / s,
          pos_b.y + (s - (ball_a.radius + ball_b.radius)) / 2 *
            (pos_a.y - pos_b.y) / s⟩,
         ⟨c.store ++ [(a, b)]⟩) ∧
      (let res := c.check s a pos_a ball_a b pos_b ball_b
       ((res.1.x - res.2.1.x) * (res.1.x - res.2.1.x) +
         (res.1.y - res.2.1.y) * (res.1.y - res.2.1.y)) =
        (ball_a.radius + ball_b.radius) * (ball_a.radius + ball_b.radius))) := by
  constructor
  · intro h
    unfold BallCollisions.check
    dsimp only
    rw [if_pos h]
  · intro h hs hs0
    have hcond : ¬ ((pos_a.x - pos_b.x) * (pos_a.x - pos_b.x) +
        (pos_a.y - pos_b.y) * (pos_a.y - pos_b.y) >
        (ball_a.radius + ball_b.radius) * (ball_a.radius + ball_b.radius)) :=
      not_lt.mpr h
    constructor
    · unfold BallCollisions.check
      dsimp only
      rw [if_neg hcond]
      refine Prod.ext ?_ (Prod.ext ?_ rfl)
      · show (⟨_, _⟩ : Vec2) = _
        refine congrArg₂ Vec2.mk ?_ ?_ <;> ring
      · show (⟨_, _⟩ : Vec2) = _
        refine congrArg₂ Vec2.mk ?_ ?_ <;> ring
    · unfold BallCollisions.check
      dsimp only
      rw [if_neg hcond]
      dsimp only
      field_simp
      ring_nf
      linear_combination (-4 * (ball_a.radius + ball_b.radius) *
        (ball_a.radius + ball_b.radius)) * hs

/-- Witness for C2's theorem: bodies at `(0,0)` and `(3,4)` (distance 5)
with radii 4 and 2 are pushed apart and the pair `[1, 2]` recorded. -/
theorem ball_collisions_check_spec_witness :
    BallCollisions.check ⟨[]⟩ 5 1 ⟨0, 0⟩ ⟨4, 16⟩ 2 ⟨3, 4⟩ ⟨2, 4⟩ =
      (⟨-3/10, -2/5⟩, ⟨33/10, 22/5⟩, ⟨[(1, 2)]⟩) := by
  have h := (ball_collisions_check_spec ⟨[]⟩ 5 1 ⟨0, 0⟩ ⟨4, 16⟩ 2 ⟨3, 4⟩ ⟨2, 4⟩).2
    (by norm_num) (by norm_num) (by norm_num)
  rw [h.1]
  norm_num

/-- The result of `balls_bounce_after_collision`, with its lets
substituted (definitional unfolding). -/
theorem bounce_formula (s : ℚ) (pos_a vel_a : Vec2) (ball_a : Ball)
    (pos_b vel_b : Vec2) (ball_b : Ball) :
    balls_bounce_after_collision s pos_a vel_a ball_a pos_b vel_b ball_b =
      (⟨vel_a.x - 2 * ((pos_b.x - pos_a.x) / s * (vel_a.x - vel_b.x) +
            (pos_b.y - pos_a.y) / s * (vel_a.y - vel_b.y)) /
            (ball_a.mass + ball_b.mass) * ball_b.mass * ((pos_b.x - pos_a.x) / s),
        vel_a.y - 2 * ((pos_b.x - pos_a.x) / s * (vel_a.x - vel_b.x) +
            (pos_b.y - pos_a.y) / s * (vel_a.y - vel_b.y)) /
            (ball_a.mass + ball_b.mass) * ball_b.mass * ((pos_b.y - pos_a.y) / s)⟩,
       ⟨vel_b.x + 2 * ((pos_b.x - pos_a.x) / s * (vel_a.x - vel_b.x) +
            (pos_b.y - pos_a.y) / s * (vel_a.y - vel_b.y)) /
            (ball_a.mass + ball_b.mass) * ball_a.mass * ((pos_b.x - pos_a.x) / s),
        vel_b.y + 2 * ((pos_b.x - pos_a.x) / s * (vel_a.x - vel_b.x) +
            (pos_b.y - pos_a.y) / s * (vel_a.y - vel_b.y)) /
            (ball_a.mass + ball_b.mass) * ball_a.mass * ((pos_b.y - pos_a.y) / s)⟩) :=
  rfl

/-- Elastic two-body impulse along a unit normal conserves momentum and
kinetic energy: the algebraic core of C3, over plain scalars. -/
theorem elastic_conserves (ma mb vax vay vbx vby nx ny : ℚ)
    (hn : nx * nx + ny * ny = 1) (hm : ma + mb ≠ 0) :
    ma * (vax - 2 * (nx * (vax - vbx) + ny * (vay - vby)) / (ma + mb) * mb * nx) +
        mb * (vbx + 2 * (nx * (vax - vbx) + ny * (vay - vby)) / (ma + mb) * ma * nx) =
      ma * vax + mb * vbx ∧
    ma * (vay - 2 * (nx * (vax - vbx) + ny * (vay - vby)) / (ma + mb) * mb * ny) +
        mb * (vby + 2 * (nx * (vax - vbx) + ny * (vay - vby)) / (ma + mb) * ma * ny) =
      ma * vay + mb * vby ∧
    (1/2) * ma *
        ((vax - 2 * (nx * (vax - vbx) + ny * (vay - vby)) / (ma + mb) * mb * nx) *
          (vax - 2 * (nx * (vax - vbx) + ny * (vay - vby)) / (ma + mb) * mb * nx) +
         (vay - 2 * (nx * (vax - vbx) + ny * (vay - vby)) / (ma + mb) * mb * ny) *
          (vay - 2 * (nx * (vax - vbx) + ny * (vay - vby)) / (ma + mb) * mb * ny)) +
      (1/2) * mb *
        ((vbx + 2 * (nx * (vax - vbx) + ny * (vay - vby)) / (ma + mb) * ma * nx) *
          (vbx + 2 * (nx * (vax - vbx) + ny * (vay - vby)) / (ma + mb) * ma * nx) +
         (vby + 2 * (nx * (vax - vbx) + ny * (vay - vby)) / (ma + mb) * ma * ny) *
          (vby + 2 * (nx * (vax - vbx) + ny * (vay - vby)) / (ma + mb) * ma * ny)) =
      (1/2) * ma * (vax * vax + vay * vay) + (1/2) * mb * (vbx * vbx + vby * vby) := by
  have hp : 2 * (nx * (vax - vbx) + ny * (vay - vby)) / (ma + mb) * (ma + mb) =
      2 * (nx * (vax - vbx) + ny * (vay - vby)) := div_mul_cancel₀ _ hm
  refine ⟨by ring, by ring, ?_⟩
  linear_combination
    ((2 * (nx * (vax - vbx) + ny * (vay - vby)) / (ma + mb)) ^ 2 *
      ma * mb * (ma + mb) / 2) * hn +
    ((2 * (nx * (vax - vbx) + ny * (vay - vby)) / (ma + mb)) *
      ma * mb / 2) * hp

/-- C3: for bodies at distinct positions (`s` the nonzero distance) with
`massA + massB ≠ 0`, `balls_bounce_after_collision` conserves total
momentum `mA·velA + mB·velB` componentwise and total kinetic energy
`½mA|velA|² + ½mB|velB|²`, exactly in exact arithmetic. -/
theorem balls_bounce_conserves (s : ℚ) (pos_a vel_a : Vec2) (ball_a : Ball)
    (pos_b vel_b : Vec2) (ball_b : Ball)
    (hne : pos_a ≠ pos_b)
    (hs : s * s = (pos_a.x - pos_b.x) * (pos_a.x - pos_b.x) +
      (pos_a.y - pos_b.y) * (pos_a.y - pos_b.y))
    (hm : ball_a.mass + ball_b.mass ≠ 0) :
    ball_a.mass *
        (balls_bounce_after_collision s pos_a vel_a ball_a pos_b vel_b ball_b).1.x +
      ball_b.mass *
        (balls_bounce_after_collision s pos_a vel_a ball_a pos_b vel_b ball_b).2.x =
      ball_a.mass * vel_a.x + ball_b.mass * vel_b.x ∧
    ball_a.mass *
        (balls_bounce_after_collision s pos_a vel_a ball_a pos_b vel_b ball_b).1.y +
      ball_b.mass *
        (balls_bounce_after_collision s pos_a vel_a ball_a pos_b vel_b ball_b).2.y =
      ball_a.mass * vel_a.y + ball_b.mass * vel_b.y ∧
    (1/2) * ball_a.mass *
        ((balls_bounce_after_collision s pos_a vel_a ball_a pos_b vel_b ball_b).1.x *
          (balls_bounce_after_collision s pos_a vel_a ball_a pos_b vel_b ball_b).1.x +
         (balls_bounce_after_collision s pos_a vel_a ball_a pos_b vel_b ball_b).1.y *
          (balls_bounce_after_collision s pos_a vel_a ball_a pos_b vel_b ball_b).1.y) +
      (1/2) * ball_b.mass *
        ((balls_bounce_after_collision s pos_a vel_a ball_a pos_b vel_b ball_b).2.x *
          (balls_bounce_after_collision s pos_a vel_a ball_a pos_b vel_b ball_b).2.x +
         (balls_bounce_after_collision s pos_a vel_a ball_a pos_b vel_b ball_b).2.y *
          (balls_bounce_after_collision s pos_a vel_a ball_a pos_b vel_b ball_b).2.y) =
      (1/2) * ball_a.mass * (vel_a.x * vel_a.x + vel_a.y * vel_a.y) +
        (1/2) * ball_b.mass * (vel_b.x * vel_b.x + vel_b.y * vel_b.y) := by
  have hs0 : s ≠ 0 := by
    intro h0
    apply hne
    obtain ⟨ax, ay⟩ := pos_a
    obtain ⟨bx, by2⟩ := pos_b
    rw [h0, zero_mul] at hs
    dsimp only at hs
    have hx2 : (ax - bx) * (ax - bx) = 0 := by
      nlinarith [mul_self_nonneg (ax - bx), mul_self_nonneg (ay - by2)]
    have hy2 : (ay - by2) * (ay - by2) = 0 := by
      nlinarith [mul_self_nonneg (ax - bx), mul_self_nonneg (ay - by2)]
    have e1 : ax = bx := by
      have := mul_self_eq_zero.mp hx2; linarith
    have e2 : ay = by2 := by
      have := mul_self_eq_zero.mp hy2; linarith
    rw [e1, e2]
  have hn : ((pos_b.x - pos_a.x) / s) * ((pos_b.x - pos_a.x) / s) +
      ((pos_b.y - pos_a.y) / s) * ((pos_b.y - pos_a.y) / s) = 1 := by
    field_simp
    linear_combination -hs
  have key := elastic_conserves ball_a.mass ball_b.mass vel_a.x vel_a.y
    vel_b.x vel_b.y ((pos_b.x - pos_a.x) / s) ((pos_b.y - pos_a.y) / s) hn hm
  rw [bounce_formula]
  exact ⟨by linear_combination key.1, by linear_combination key.2.1,
    by linear_combination key.2.2⟩

/-- Witness for C3's theorem: bodies at `(0,0)` and `(3,4)` (distance 5),
masses 2 and 3, velocities `(1,−1)` and `(0,2)`. -/
theorem balls_bounce_conserves_witness :
    (⟨1, 2⟩ : Ball).mass *
        (balls_bounce_after_collision 5 ⟨0, 0⟩ ⟨1, -1⟩ ⟨1, 2⟩ ⟨3, 4⟩ ⟨0, 2⟩ ⟨2, 3⟩).1.x +
      (⟨2, 3⟩ : Ball).mass *
        (balls_bounce_after_collision 5 ⟨0, 0⟩ ⟨1, -1⟩ ⟨1, 2⟩ ⟨3, 4⟩ ⟨0, 2⟩ ⟨2, 3⟩).2.x =
      (⟨1, 2⟩ : Ball).mass * (⟨1, -1⟩ : Vec2).x +
        (⟨2, 3⟩ : Ball).mass * (⟨0, 2⟩ : Vec2).x ∧
    (⟨1, 2⟩ : Ball).mass *
        (balls_bounce_after_collision 5 ⟨0, 0⟩ ⟨1, -1⟩ ⟨1, 2⟩ ⟨3, 4⟩ ⟨0, 2⟩ ⟨2, 3⟩).1.y +
      (⟨2, 3⟩ : Ball).mass *
        (balls_bounce_after_collision 5 ⟨0, 0⟩ ⟨1, -1⟩ ⟨1, 2⟩ ⟨3, 4⟩ ⟨0, 2⟩ ⟨2, 3⟩).2.y =
      (⟨1, 2⟩ : Ball).mass * (⟨1, -1⟩ : Vec2).y +
        (⟨2, 3⟩ : Ball).mass * (⟨0, 2⟩ : Vec2).y ∧
    (1/2) * (⟨1, 2⟩ : Ball).mass *
        ((balls_bounce_after_collision 5 ⟨0, 0⟩ ⟨1, -1⟩ ⟨1, 2⟩ ⟨3, 4⟩ ⟨0, 2⟩ ⟨2, 3⟩).1.x *
          (balls_bounce_after_collision 5 ⟨0, 0⟩ ⟨1, -1⟩ ⟨1, 2⟩ ⟨3, 4⟩ ⟨0, 2⟩ ⟨2, 3⟩).1.x +
         (balls_bounce_after_collision 5 ⟨0, 0⟩ ⟨1, -1⟩ ⟨1, 2⟩ ⟨3, 4⟩ ⟨0, 2⟩ ⟨2, 3⟩).1.y *
          (balls_bounce_after_collision 5 ⟨0, 0⟩ ⟨1, -1⟩ ⟨1, 2⟩ ⟨3, 4⟩ ⟨0, 2⟩ ⟨2, 3⟩).1.y) +
      (1/2) * (⟨2, 3⟩ : Ball).mass *
        ((balls_bounce_after_collision 5 ⟨0, 0⟩ ⟨1, -1⟩ ⟨1, 2⟩ ⟨3, 4⟩ ⟨0, 2⟩ ⟨2, 3⟩).2.x *
          (balls_bounce_after_collision 5 ⟨0, 0⟩ ⟨1, -1⟩ ⟨1, 2⟩ ⟨3, 4⟩ ⟨0, 2⟩ ⟨2, 3⟩).2.x +
         (balls_bounce_after_collision 5 ⟨0, 0⟩ ⟨1, -1⟩ ⟨1, 2⟩ ⟨3, 4⟩ ⟨0, 2⟩ ⟨2, 3⟩).2.y *
          (balls_bounce_after_collision 5 ⟨0, 0⟩ ⟨1, -1⟩ ⟨1, 2⟩ ⟨3, 4⟩ ⟨0, 2⟩ ⟨2, 3⟩).2.y) =
      (1/2) * (⟨1, 2⟩ : Ball).mass *
          ((⟨1, -1⟩ : Vec2).x * (⟨1, -1⟩ : Vec2).x +
            (⟨1, -1⟩ : Vec2).y * (⟨1, -1⟩ : Vec2).y) +
        (1/2) * (⟨2, 3⟩ : Ball).mass *
          ((⟨0, 2⟩ : Vec2).x * (⟨0, 2⟩ : Vec2).x +
            (⟨0, 2⟩ : Vec2).y * (⟨0, 2⟩ : Vec2).y) :=
  balls_bounce_conserves 5 ⟨0, 0⟩ ⟨1, -1⟩ ⟨1, 2⟩ ⟨3, 4⟩ ⟨0, 2⟩ ⟨2, 3⟩
    (by norm_num [Vec2.mk.injEq]) (by norm_num) (by norm_num)

/-- Counting pairs contributed by one outer entry of the broad-phase
loop: the inner pass over `l` emits `(a, q)` for every entry `q` of `l`
with id different from `a`. -/
theorem count_pairs_inner (l : List (Nat × Location)) (a x y : Nat) :
    ((l.filter fun pb => decide (a ≠ pb.1)).map fun pb => (a, pb.1)).count (x, y) =
      if x = a ∧ x ≠ y then (l.map Prod.fst).count y else 0 := by
  rw [List.count_eq_countP, List.countP_map, List.countP_filter]
  by_cases hc : x = a ∧ x ≠ y
  · rw [if_pos hc, List.count_eq_countP, List.countP_map]
    apply List.countP_congr
    intro pb _
    obtain ⟨hxa, hxy⟩ := hc
    subst hxa
    simp only [Function.comp_apply, Bool.and_eq_true, decide_eq_true_eq,
      beq_iff_eq, Prod.mk.injEq]
    constructor
    · rintro ⟨⟨-, h⟩, -⟩; exact h
    · intro h
      refine ⟨⟨by trivial, h⟩, by rw [h]; exact hxy⟩
  · rw [if_neg hc]
    rw [List.countP_eq_zero]
    intro pb _
    simp only [Function.comp_apply, Bool.and_eq_true, decide_eq_true_eq,
      beq_iff_eq, Prod.mk.injEq]
    rintro ⟨⟨ha, hp⟩, hne⟩
    exact hc ⟨ha.symm, fun hxy => hne (by rw [ha, hxy, ← hp])⟩

/-- Counting pairs over the whole broad-phase double loop, outer list
generalised. -/
theorem count_pairs_outer (part : List (Nat × Location)) (x y : Nat) :
    ∀ outer : List (Nat × Location),
      ((outer.flatMap fun pa =>
          (part.filter fun pb => decide (pa.1 ≠ pb.1)).map
            fun pb => (pa.1, pb.1)).count (x, y)) =
        (outer.map Prod.fst).count x *
          (if x = y then 0 else (part.map Prod.fst).count y) := by
  intro outer
  induction outer with
  | nil => simp
  | cons pa rest ih =>
    rw [List.flatMap_cons, List.count_append, ih, count_pairs_inner,
      List.map_cons, List.count_cons]
    by_cases hxy : x = y
    · simp [hxy]
    · by_cases hxa : x = pa.1
      · subst hxa
        rw [if_pos ⟨rfl, hxy⟩]
        simp only [if_neg hxy, beq_iff_eq, eq_self_iff_true, if_true]
        ring
      · rw [if_neg (by tauto : ¬(x = pa.1 ∧ x ≠ y))]
        simp only [if_neg hxy, beq_iff_eq,
          if_neg (show ¬pa.1 = x from fun h => hxa h.symm)]
        ring

/-- C5 amended: within one region's scan, each ordered pair `(a, b)` of
distinct ids is tested once per occurrence of `a` times occurrence of `b`
(so a region whose entries carry pairwise distinct ids tests every
unordered pair exactly twice, once in each order), and pairs with equal
ids are never tested. -/
theorem testedPairs_count (part : List (Nat × Location)) (x y : Nat) :
    (testedPairs part).count (x, y) =
      if x = y then 0
      else (part.map Prod.fst).count x * (part.map Prod.fst).count y := by
  unfold testedPairs
  rw [count_pairs_outer part x y part]
  by_cases h : x = y <;> simp [h]

/-- C5 counterexample: a region with entries of ids 1 and 2 passes both
`(1,2)` and `(2,1)` to `BallCollisions::check` — the unordered pair is
tested twice, not once. -/
theorem testedPairs_counterexample :
    testedPairs exPart = [(1, 2), (2, 1)] ∧
    (testedPairs exPart).count (1, 2) = 1 ∧
    (testedPairs exPart).count (2, 1) = 1 := by
  decide

/-- Top-level error behaviour of `insertGo`, for any fuel: the error is
`OutOfBounds(self.bounds, location)` exactly when the location misses the
node's bounds, in which case the tree is untouched; otherwise `Ok`. -/
theorem insertGo_spec_err (fuel : Nat) (t : QuadTree) (l : Location) (v : Nat) :
    ((QuadTree.insertGo fuel t l v).2 = some (.OutOfBounds t.bounds l) ↔
      t.contains l = false) ∧
    (t.contains l = false → (QuadTree.insertGo fuel t l v).1 = t) ∧
    (t.contains l = true → (QuadTree.insertGo fuel t l v).2 = none) := by
  by_cases h : t.contains l = false
  · rw [QuadTree.insertGo.eq_def, if_pos h]
    refine ⟨by simp [h], fun _ => rfl, fun hc => by simp [h] at hc⟩
  · have h' : t.contains l = true := by
      revert h; cases t.contains l <;> simp
    have hnone : (QuadTree.insertGo fuel t l v).2 = none := by
      rw [QuadTree.insertGo.eq_def, if_neg h]
      cases t with
      | Empty b o d => rfl
      | Node b o d q0 q1 q2 q3 => rfl
      | Leaf b o d elems =>
        dsimp only
        split_ifs <;> first | rfl | (cases fuel <;> rfl)
    refine ⟨by simp [hnone, h'], fun hc => by simp [h'] at hc,
      fun _ => hnone⟩

/-- `insertGo` never changes the `depth` field of the node it is called
on. -/
theorem insertGo_depth (fuel : Nat) (t : QuadTree) (l : Location) (v : Nat) :
    (QuadTree.insertGo fuel t l v).1.depth = t.depth := by
  rw [QuadTree.insertGo.eq_def]
  by_cases h : t.contains l = false
  · rw [if_pos h]
  · rw [if_neg h]
    cases t with
    | Empty b o d => rfl
    | Node b o d q0 q1 q2 q3 => rfl
    | Leaf b o d elems =>
      dsimp only
      split_ifs <;> first | rfl | (cases fuel <;> rfl)

/-- An invariant preserved by single insertions is preserved across the
re-insertion loop of a split, on all four regions. -/
theorem insertAll_pres (fuel : Nat) (Inv : QuadTree → Prop)
    (H : ∀ t l v, Inv t → Inv (QuadTree.insertGo fuel t l v).1) :
    ∀ (elems : List (Location × Nat))
      (rs : QuadTree × QuadTree × QuadTree × QuadTree),
      Inv rs.1 → Inv rs.2.1 → Inv rs.2.2.1 → Inv rs.2.2.2 →
      Inv (QuadTree.insertAll fuel elems rs).1 ∧
      Inv (QuadTree.insertAll fuel elems rs).2.1 ∧
      Inv (QuadTree.insertAll fuel elems rs).2.2.1 ∧
      Inv (QuadTree.insertAll fuel elems rs).2.2.2 := by
  intro elems
  induction elems with
  | nil =>
    intro rs h0 h1 h2 h3
    rw [QuadTree.insertAll.eq_def]
    exact ⟨h0, h1, h2, h3⟩
  | cons e es ih =>
    intro rs h0 h1 h2 h3
    rw [QuadTree.insertAll.eq_def]
    exact ih _ (H _ _ _ h0) (H _ _ _ h1) (H _ _ _ h2) (H _ _ _ h3)

/-- `insertGo` preserves the depth-step invariant: children always sit
`+2 (mod 256)` below their parent. -/
theorem insertGo_pres_depthSteps (fuel : Nat) :
    ∀ (t : QuadTree) (l : Location) (v : Nat),
      t.depthSteps → (QuadTree.insertGo fuel t l v).1.depthSteps := by
  induction fuel with
  | zero =>
    intro t
    induction t with
    | Empty b o d =>
      intro l v h
      rw [QuadTree.insertGo.eq_def]
      split_ifs <;> trivial
    | Leaf b o d elems =>
      intro l v h
      rw [QuadTree.insertGo.eq_def]
      dsimp only
      split_ifs <;> trivial
    | Node b o d q0 q1 q2 q3 ih0 ih1 ih2 ih3 =>
      intro l v h
      rw [QuadTree.insertGo.eq_def]
      split_ifs with hc
      · exact h
      · obtain ⟨hd0, hd1, hd2, hd3, hs0, hs1, hs2, hs3⟩ := h
        exact ⟨by rw [insertGo_depth]; exact hd0,
          by rw [insertGo_depth]; exact hd1,
          by rw [insertGo_depth]; exact hd2,
          by rw [insertGo_depth]; exact hd3,
          ih0 l v hs0, ih1 l v hs1, ih2 l v hs2, ih3 l v hs3⟩
  | succ fuel ihf =>
    intro t
    induction t with
    | Empty b o d =>
      intro l v h
      rw [QuadTree.insertGo.eq_def]
      split_ifs <;> trivial
    | Leaf b o d elems =>
      intro l v h
      rw [QuadTree.insertGo.eq_def]
      dsimp only
      split_ifs with hc h1 h2
      · trivial
      · trivial
      · trivial
      · have hreg : ∀ bb : Bounds,
            (QuadTree.new_region bb o ((d + 1) % 256)).depth = (d + 2) % 256 ∧
            (QuadTree.new_region bb o ((d + 1) % 256)).depthSteps := by
          intro bb
          refine ⟨?_, trivial⟩
          show ((d + 1) % 256 + 1) % 256 = (d + 2) % 256
          omega
        have H : ∀ t l v, (fun q => q.depth = (d + 2) % 256 ∧ q.depthSteps) t →
            (fun q => q.depth = (d + 2) % 256 ∧ q.depthSteps)
              (QuadTree.insertGo fuel t l v).1 := by
          intro t l v ⟨hdep, hst⟩
          exact ⟨by rw [insertGo_depth]; exact hdep, ihf t l v hst⟩
        have hall := insertAll_pres fuel _ H (elems ++ [(l, v)])
          (QuadTree.new_region (Bounds.from_corners b.top_left b.center) o
              ((d + 1) % 256),
           QuadTree.new_region (Bounds.from_corners b.center b.top_right) o
              ((d + 1) % 256),
           QuadTree.new_region (Bounds.from_corners b.center b.bottom_right) o
              ((d + 1) % 256),
           QuadTree.new_region (Bounds.from_corners b.bottom_left b.center) o
              ((d + 1) % 256))
          (hreg _) (hreg _) (hreg _) (hreg _)
        exact ⟨hall.1.1, hall.2.1.1, hall.2.2.1.1, hall.2.2.2.1,
          hall.1.2, hall.2.1.2, hall.2.2.1.2, hall.2.2.2.2⟩
    | Node b o d q0 q1 q2 q3 ih0 ih1 ih2 ih3 =>
      intro l v h
      rw [QuadTree.insertGo.eq_def]
      split_ifs with hc
      · exact h
      · obtain ⟨hd0, hd1, hd2, hd3, hs0, hs1, hs2, hs3⟩ := h
        exact ⟨by rw [insertGo_depth]; exact hd0,
          by rw [insertGo_depth]; exact hd1,
          by rw [insertGo_depth]; exact hd2,
          by rw [insertGo_depth]; exact hd3,
          ih0 l v hs0, ih1 l v hs1, ih2 l v hs2, ih3 l v hs3⟩

/-- `insertGo` preserves the capacity invariant of a tree configured with
`capacity = k ≥ 1`, `max_depth = None`, `min_size = None`: reachable
depths are even and below 255, so the `depth >= 255` escape never fires
and every leaf stays at or below `k` entries. -/
theorem insertGo_pres_capInv (k : Nat) (hk : 1 ≤ k) (fuel : Nat) :
    ∀ (t : QuadTree) (l : Location) (v : Nat),
      t.capInv k → (QuadTree.insertGo fuel t l v).1.capInv k := by
  induction fuel with
  | zero =>
    intro t
    induction t with
    | Empty b o d =>
      intro l v h
      rw [QuadTree.insertGo.eq_def]
      split_ifs with hc
      · exact h
      · obtain ⟨h1, h2, h3⟩ := h
        exact ⟨h1, h2, h3, by simpa using hk⟩
    | Leaf b o d elems =>
      intro l v h
      rw [QuadTree.insertGo.eq_def]
      dsimp only
      obtain ⟨h1, h2, h3, h4⟩ := h
      split_ifs with hc hcap hms
      · exact ⟨h1, h2, h3, h4⟩
      · refine ⟨h1, h2, h3, ?_⟩
        rcases hcap with hlen | hdep
        · rw [h3] at hlen
          exact hlen
        · exfalso
          rw [h3] at hdep
          simp only [Option.getD] at hdep
          omega
      · exfalso
        rw [h3] at hms
        simp [QuadTree.minSizeStop] at hms
      · exact ⟨h1, h2, h3, h4⟩
    | Node b o d q0 q1 q2 q3 ih0 ih1 ih2 ih3 =>
      intro l v h
      rw [QuadTree.insertGo.eq_def]
      split_ifs with hc
      · exact h
      · obtain ⟨h1, h2, h3, hq0, hq1, hq2, hq3⟩ := h
        exact ⟨h1, h2, h3, ih0 l v hq0, ih1 l v hq1, ih2 l v hq2, ih3 l v hq3⟩
  | succ fuel ihf =>
    intro t
    induction t with
    | Empty b o d =>
      intro l v h
      rw [QuadTree.insertGo.eq_def]
      split_ifs with hc
      · exact h
      · obtain ⟨h1, h2, h3⟩ := h
        exact ⟨h1, h2, h3, by simpa using hk⟩
    | Leaf b o d elems =>
      intro l v h
      rw [QuadTree.insertGo.eq_def]
      dsimp only
      obtain ⟨h1, h2, h3, h4⟩ := h
      split_ifs with hc hcap hms
      · exact ⟨h1, h2, h3, h4⟩
      · refine ⟨h1, h2, h3, ?_⟩
        rcases hcap with hlen | hdep
        · rw [h3] at hlen
          exact hlen
        · exfalso
          rw [h3] at hdep
          simp only [Option.getD] at hdep
          omega
      · exfalso
        rw [h3] at hms
        simp [QuadTree.minSizeStop] at hms
      · have hreg : ∀ bb : Bounds,
            (QuadTree.new_region bb o ((d + 1) % 256)).capInv k :=
          fun bb => ⟨by omega, by omega, h3⟩
        have hall := insertAll_pres fuel (QuadTree.capInv k) (ihf)
          (elems ++ [(l, v)])
          (QuadTree.new_region (Bounds.from_corners b.top_left b.center) o
              ((d + 1) % 256),
           QuadTree.new_region (Bounds.from_corners b.center b.top_right) o
              ((d + 1) % 256),
           QuadTree.new_region (Bounds.from_corners b.center b.bottom_right) o
              ((d + 1) % 256),
           QuadTree.new_region (Bounds.from_corners b.bottom_left b.center) o
              ((d + 1) % 256))
          (hreg _) (hreg _) (hreg _) (hreg _)
        exact ⟨h1, h2, h3, hall.1, hall.2.1, hall.2.2.1, hall.2.2.2⟩
    | Node b o d q0 q1 q2 q3 ih0 ih1 ih2 ih3 =>
      intro l v h
      rw [QuadTree.insertGo.eq_def]
      split_ifs with hc
      · exact h
      · obtain ⟨h1, h2, h3, hq0, hq1, hq2, hq3⟩ := h
        exact ⟨h1, h2, h3, ih0 l v hq0, ih1 l v hq1, ih2 l v hq2, ih3 l v hq3⟩

/-- Folding insertions preserves the depth-step invariant. -/
theorem applyInserts_pres_depthSteps (ins : List (Location × Nat)) :
    ∀ t : QuadTree, t.depthSteps → (applyInserts t ins).depthSteps := by
  induction ins with
  | nil => intro t h; exact h
  | cons e es ih =>
    intro t h
    exact ih _ (insertGo_pres_depthSteps QuadTree.insertFuel t e.1 e.2 h)

/-- Folding insertions never changes the root's depth. -/
theorem applyInserts_depth (ins : List (Location × Nat)) :
    ∀ t : QuadTree, (applyInserts t ins).depth = t.depth := by
  induction ins with
  | nil => intro t; rfl
  | cons e es ih =>
    intro t
    rw [applyInserts, List.foldl_cons, ← applyInserts]
    rw [ih, QuadTree.insert, insertGo_depth]

/-- Folding insertions preserves the capacity invariant. -/
theorem applyInserts_pres_capInv (k : Nat) (hk : 1 ≤ k)
    (ins : List (Location × Nat)) :
    ∀ t : QuadTree, t.capInv k → (applyInserts t ins).capInv k := by
  induction ins with
  | nil => intro t h; exact h
  | cons e es ih =>
    intro t h
    exact ih _ (insertGo_pres_capInv k hk QuadTree.insertFuel t e.1 e.2 h)

/-- The capacity invariant bounds every leaf's entry list. -/
theorem capInv_leafEntryLists (k : Nat) :
    ∀ t : QuadTree, t.capInv k →
      ∀ l ∈ t.leafEntryLists, l.length ≤ k := by
  intro t
  induction t with
  | Empty b o d => intro _ l hl; simp [QuadTree.leafEntryLists] at hl
  | Leaf b o d elems =>
    intro h l hl
    simp only [QuadTree.leafEntryLists, List.mem_singleton] at hl
    subst hl
    exact h.2.2.2
  | Node b o d q0 q1 q2 q3 ih0 ih1 ih2 ih3 =>
    intro h l hl
    simp only [QuadTree.leafEntryLists, List.mem_append] at hl
    obtain ⟨-, -, -, hq0, hq1, hq2, hq3⟩ := h
    rcases hl with ((hl | hl) | hl) | hl
    · exact ih0 hq0 l hl
    · exact ih1 hq1 l hl
    · exact ih2 hq2 l hl
    · exact ih3 hq3 l hl

/-- C1: `insert(location, id)` returns `OutOfBounds(self.bounds, location)`
if and only if the location does not overlap the tree's bounds (point
containment for `Point`, corner-based area intersection for `Area`, via
`contains`); on that error the tree is exactly as before, and otherwise
the call returns `Ok`. -/
theorem insert_out_of_bounds (t : QuadTree) (l : Location) (v : Nat) :
    ((t.insert l v).2 = some (.OutOfBounds t.bounds l) ↔
      t.contains l = false) ∧
    (t.contains l = false → (t.insert l v).1 = t) ∧
    (t.contains l = true → (t.insert l v).2 = none) := by
  unfold QuadTree.insert
  exact insertGo_spec_err QuadTree.insertFuel t l v

/-- Witness for C1's theorem: inserting a point at `(−1,−1)` into the
empty tree over `(0,0)`–`(100,100)` errors and leaves the tree
unchanged (§8's out-of-bounds scenario). -/
theorem insert_out_of_bounds_witness :
    (exT0.insert (.Point ⟨-1, -1⟩) 7).1 = exT0 ∧
    (exT0.insert (.Point ⟨-1, -1⟩) 7).2 =
      some (.OutOfBounds exT0.bounds (.Point ⟨-1, -1⟩)) := by
  have hc : exT0.contains (.Point ⟨-1, -1⟩) = false := by
    norm_num [exT0, exBounds, exOptions, QuadTree.new, QuadTree.contains,
      QuadTree.bounds, Bounds.contains, Bounds.new, Bounds.left, Bounds.right,
      Bounds.top, Bounds.bottom]
  exact ⟨(insert_out_of_bounds exT0 (.Point ⟨-1, -1⟩) 7).2.1 hc,
    (insert_out_of_bounds exT0 (.Point ⟨-1, -1⟩) 7).1.mpr hc⟩

set_option maxHeartbeats 1600000 in
/-- The first example insertion produces a one-entry leaf. -/
theorem exT1_eq :
    exT1 = .Leaf exBounds exOptions 0 [(.Point ⟨25, 25⟩, 1)] := by
  norm_num [exT1, exT0, exBounds, exOptions, QuadTree.insert,
    QuadTree.insertGo, QuadTree.insertAll, QuadTree.insertFuel, QuadTree.new,
    QuadTree.new_region, QuadTree.contains, QuadTree.minSizeStop,
    QuadTree.bounds, Bounds.new, Bounds.contains, Bounds.intersects,
    Bounds.from_corners, Bounds.left, Bounds.right, Bounds.top, Bounds.bottom,
    Bounds.top_left, Bounds.top_right, Bounds.bottom_left, Bounds.bottom_right,
    Bounds.width, Bounds.height, Bounds.center]

set_option maxRecDepth 40000 in
set_option maxHeartbeats 3000000 in
/-- The second example insertion overflows the capacity-1 root leaf and
splits it: the four children are created at depth 2. -/
theorem exT2_eq :
    exT2 = .Node exBounds exOptions 0
      (.Empty ⟨⟨25, 75⟩, ⟨25, 25⟩⟩ exOptions 2)
      (.Leaf ⟨⟨75, 75⟩, ⟨25, 25⟩⟩ exOptions 2 [(.Point ⟨75, 75⟩, 2)])
      (.Empty ⟨⟨75, 25⟩, ⟨25, 25⟩⟩ exOptions 2)
      (.Leaf ⟨⟨25, 25⟩, ⟨25, 25⟩⟩ exOptions 2 [(.Point ⟨25, 25⟩, 1)]) := by
  rw [exT2, exT1_eq]
  norm_num [exBounds, exOptions, QuadTree.insert, QuadTree.insertGo,
    QuadTree.insertAll, QuadTree.insertFuel, QuadTree.new,
    QuadTree.new_region, QuadTree.contains, QuadTree.minSizeStop,
    QuadTree.bounds, Bounds.new, Bounds.contains, Bounds.intersects,
    Bounds.from_corners, Bounds.left, Bounds.right, Bounds.top, Bounds.bottom,
    Bounds.top_left, Bounds.top_right, Bounds.bottom_left, Bounds.bottom_right,
    Bounds.width, Bounds.height, Bounds.center]

/-- C4 counterexample: splitting the root (depth 0) of a capacity-1 tree
gives children whose `depth` field is 2, not the claimed
`parent.depth + 1 = 1`. -/
theorem quadtree_child_depth_counterexample :
    exT2.depth = 0 ∧
    (exT2.region 0).map QuadTree.depth = some 2 ∧
    (exT2.region 0).map QuadTree.depth ≠ some (exT2.depth + 1) := by
  rw [exT2_eq]
  refine ⟨rfl, rfl, ?_⟩
  simp [QuadTree.region, QuadTree.depth]

/-- C4 amended: in every tree built from `new` (root depth 0) by
insertions, each `Node`'s children carry depth `parent.depth + 2`
(mod 256, the `depth` field being a u8 that is incremented once at the
call site and once more inside `new_region`), and the root's depth stays
0; hence a node at level `L` has depth `2L mod 256`. -/
theorem quadtree_depth_steps (b : Bounds) (o : Options)
    (ins : List (Location × Nat)) :
    (applyInserts (QuadTree.new b o) ins).depthSteps ∧
    (applyInserts (QuadTree.new b o) ins).depth = 0 := by
  constructor
  · exact applyInserts_pres_depthSteps ins _ trivial
  · rw [applyInserts_depth]
    rfl

/-- C6: a tree configured with `capacity = k ≥ 1`, `max_depth = None` and
`min_size = None` never holds more than `k` entries in any leaf after any
sequence of insertions — unconditionally, which implies the claim's
"unless spatially indistinguishable" form. (The `depth >= 255` escape of
the source, the only path to an over-capacity leaf, is unreachable: the
u8 depth steps by 2 from 0 and wraps at 256, so it is always even and
below 255; runs that would need it do not terminate.) -/
theorem quadtree_capacity_invariant (b : Bounds) (k : Nat) (hk : 1 ≤ k)
    (ins : List (Location × Nat)) :
    ∀ l ∈ (applyInserts (QuadTree.new b ⟨k, none, none⟩) ins).leafEntryLists,
      l.length ≤ k := by
  apply capInv_leafEntryLists
  apply applyInserts_pres_capInv k hk
  exact ⟨by omega, by omega, rfl⟩

/-- Witness for C6's theorem at `k = 1` with one concrete insertion. -/
theorem quadtree_capacity_invariant_witness :
    (applyInserts (QuadTree.new exBounds ⟨1, none, none⟩)
        [(.Point ⟨25, 25⟩, 1)]).leafEntryLists.all
      (fun l => l.length ≤ 1) = true := by
  rw [List.all_eq_true]
  intro l hl
  exact decide_eq_true
    (quadtree_capacity_invariant exBounds 1 (by norm_num)
      [(.Point ⟨25, 25⟩, 1)] l hl)
